import Mathlib

/-!
Verification of the farm-keeper semantic-memory service (`memory_service.py`).

The retrieval layer (`RagIndex`, `retrieve`) is embedded generically over a
linear ordered commutative ring so that concrete witnesses can be evaluated
over `ℤ`.
The index-building and service layers (`load_index_from_db`, `store`,
`reload_index`, `startup`) work over `ℝ`, because index construction
L2-normalizes embeddings with a square root.

Numpy's `argpartition`/`argsort` selection of the top-k scores is modelled as
a sort of `(row index, score)` pairs by descending score; numpy's tie order
among exactly equal scores is deterministic but unspecified, and is modelled
here as ascending original row index (the stable choice the spec requires).
-/

namespace FarmKeeper

/-- Dot product of two vectors, truncating to the shorter length
(matches `emb_matrix @ qv` row-wise when lengths agree). -/
def dot {α : Type} [LinearOrderedCommRing α] (v w : List α) : α :=
  (List.zipWith (fun a b => a * b) v w).sum

/-- Sum of squares of a vector; the square of its L2 norm. -/
def sumSq {α : Type} [LinearOrderedCommRing α] (v : List α) : α :=
  (v.map (fun x => x * x)).sum

/-- Allowed priority values, from `PRIORITIES = {"normal", "high"}`. -/
def PRIORITIES : List String := ["normal", "high"]

/-- Columnar in-memory snapshot, from the `RagIndex` dataclass: five parallel
columns plus the embedding matrix. -/
structure RagIndex (α : Type) where
  source_path : List String
  kind : List String
  chunk_index : List Nat
  priority : List String
  text : List String
  emb_matrix : List (List α)

/-- One retrieval result, from the `RetrievedChunk` response model. -/
structure RetrievedChunk (α : Type) where
  score : α
  source_path : String
  kind : String
  chunk_index : Nat
  priority : String
  text : String
  deriving Repr, DecidableEq

/-- Ranking order on `(row index, score)` pairs: higher score first, equal
scores ordered by ascending original row index. -/
def rankLe {α : Type} [LinearOrderedCommRing α] (a b : Nat × α) : Prop :=
  b.2 < a.2 ∨ (a.2 = b.2 ∧ a.1 ≤ b.1)

instance {α : Type} [LinearOrderedCommRing α] : DecidableRel (rankLe (α := α)) :=
  fun a b => inferInstanceAs (Decidable (b.2 < a.2 ∨ (a.2 = b.2 ∧ a.1 ≤ b.1)))

instance {α : Type} [LinearOrderedCommRing α] : IsTotal (Nat × α) rankLe where
  total a b := by
    rcases lt_trichotomy a.2 b.2 with h | h | h
    · exact Or.inr (Or.inl h)
    · rcases Nat.le_total a.1 b.1 with h1 | h1
      · exact Or.inl (Or.inr ⟨h, h1⟩)
      · exact Or.inr (Or.inr ⟨h.symm, h1⟩)
    · exact Or.inl (Or.inl h)

instance {α : Type} [LinearOrderedCommRing α] : IsTrans (Nat × α) rankLe where
  trans a b c hab hbc := by
    rcases hab with h1 | ⟨he1, hi1⟩
    · rcases hbc with h2 | ⟨he2, _⟩
      · exact Or.inl (h2.trans h1)
      · exact Or.inl (he2 ▸ h1)
    · rcases hbc with h2 | ⟨he2, hi2⟩
      · exact Or.inl (he1 ▸ h2)
      · exact Or.inr ⟨he1.trans he2, hi1.trans hi2⟩

/-- Candidate row indices of a query, from `retrieve`: with no kind filter
(or the falsy empty-string filter, which `if q.kind:` skips) every row of the
embedding matrix; otherwise `np.flatnonzero(mask)` over the `kind` column. -/
def candIdx {α : Type} (s : RagIndex α) (kf : Option String) : List Nat :=
  match kf with
  | none => List.range s.emb_matrix.length
  | some f =>
      if f = "" then List.range s.emb_matrix.length
      else (List.range s.kind.length).filter (fun i => s.kind.getD i "" = f)

/-- Number of candidate rows considered by a retrieve request. -/
def candidateCount {α : Type} (s : RagIndex α) (kf : Option String) : Nat :=
  (candIdx s kf).length

/-- Score of row `i` against query vector `qv`, from `scores = emb_matrix @ qv`. -/
def scoreAt {α : Type} [LinearOrderedCommRing α] (s : RagIndex α) (qv : List α) (i : Nat) : α :=
  dot (s.emb_matrix.getD i []) qv

/-- Candidate rows paired with their scores, in original row order. -/
def scoredList {α : Type} [LinearOrderedCommRing α] (s : RagIndex α) (qv : List α)
    (kf : Option String) : List (Nat × α) :=
  (candIdx s kf).map (fun i => (i, scoreAt s qv i))

/-- Selected `(row index, score)` pairs of a retrieve request: the top
`min topk candidates` pairs by descending score, from
`argpartition` + `argsort` followed by `[:topk]`. -/
def retrievePairs {α : Type} [LinearOrderedCommRing α] (s : RagIndex α) (qv : List α)
    (topk : Nat) (kf : Option String) : List (Nat × α) :=
  (List.insertionSort rankLe (scoredList s qv kf)).take (min topk (candIdx s kf).length)

/-- Response record assembled from row `i` of the snapshot, from the loop
building `RetrievedChunk` values at the end of `retrieve`. -/
def mkChunk {α : Type} (s : RagIndex α) (i : Nat) (sc : α) : RetrievedChunk α :=
  { score := sc
    source_path := s.source_path.getD i ""
    kind := s.kind.getD i ""
    chunk_index := s.chunk_index.getD i 0
    priority := s.priority.getD i ""
    text := s.text.getD i "" }

/-- Top-k cosine-similarity retrieval over a snapshot, from the `/retrieve`
endpoint (after the query has been embedded into `qv`). -/
def retrieve {α : Type} [LinearOrderedCommRing α] (s : RagIndex α) (qv : List α)
    (topk : Nat) (kf : Option String) : List (RetrievedChunk α) :=
  (retrievePairs s qv topk kf).map (fun p => mkChunk s p.1 p.2)

/-- L2 norm, from `np.linalg.norm`. -/
noncomputable def l2norm (v : List ℝ) : ℝ := Real.sqrt (sumSq v)

/-- Defensive re-normalization at load time, from
`if norm > 0: v = v / norm`; a zero-norm vector passes through unchanged. -/
noncomputable def normalizeRow (v : List ℝ) : List ℝ :=
  if 0 < l2norm v then v.map (fun x => x / l2norm v) else v

/-- Persisted chunk row of the `rag_chunks` table. The `priority` column is
`Option String` because rows written before the priority migration may hold
NULL; `emb` is the float32 vector decoded from the blob, with `dim` the
recorded dimension column. -/
structure DBRow where
  id : String
  source_path : String
  kind : String
  chunk_index : Nat
  priority : Option String
  text : String
  emb : List ℝ
  dim : Nat
  created_at : String

instance : Inhabited DBRow := ⟨⟨"", "", "", 0, none, "", [], 0, ""⟩⟩

/-- Failure modes of index construction: `rag_chunks is empty`,
`Inconsistent dim in DB`, and `np.frombuffer` finding fewer than `count`
floats in the blob. -/
inductive LoadError where
  | emptyStore : LoadError
  | dimMismatch (got expected : Nat) : LoadError
  | shortBuffer (len count : Nat) : LoadError
  deriving Repr, DecidableEq

/-- Priority loaded into the snapshot, from
`pr_s = str(pr) if pr is not None else "normal"` followed by the
`pr_s if pr_s in PRIORITIES else "normal"` guard. -/
def loadPriority : Option String → String
  | none => "normal"
  | some s => if s ∈ PRIORITIES then s else "normal"

/-- Embedding vector loaded from one row, from the per-row body of the loop
in `_load_index_from_db`: dim consistency check, `np.frombuffer` with
`count=dim`, then defensive normalization. -/
noncomputable def loadRow (dim0 : Nat) (r : DBRow) : Except LoadError (List ℝ) :=
  if r.dim ≠ dim0 then .error (.dimMismatch r.dim dim0)
  else if r.emb.length < r.dim then .error (.shortBuffer r.emb.length r.dim)
  else .ok (normalizeRow (r.emb.take r.dim))

/-- Embedding vectors of all rows, stopping at the first failing row
(the loop raises on the first inconsistent row). -/
noncomputable def loadRows (dim0 : Nat) : List DBRow → Except LoadError (List (List ℝ))
  | [] => .ok []
  | r :: rs =>
      match loadRow dim0 r with
      | .error e => .error e
      | .ok v =>
          match loadRows dim0 rs with
          | .error e => .error e
          | .ok vs => .ok (v :: vs)

/-- Index construction, from `_load_index_from_db`: rejects an empty table,
takes `dim0` from the first row, and builds the columnar snapshot. -/
noncomputable def load_index_from_db : List DBRow → Except LoadError (RagIndex ℝ)
  | [] => .error .emptyStore
  | r0 :: rs =>
      match loadRows r0.dim (r0 :: rs) with
      | .error e => .error e
      | .ok embs =>
          .ok { source_path := (r0 :: rs).map (fun r => r.source_path)
                kind := (r0 :: rs).map (fun r => r.kind)
                chunk_index := (r0 :: rs).map (fun r => r.chunk_index)
                priority := (r0 :: rs).map (fun r => loadPriority r.priority)
                text := (r0 :: rs).map (fun r => r.text)
                emb_matrix := embs }

/-- Store request body, from the `StoreRequest` model. -/
structure StoreRequest where
  source_path : String
  kind : String
  chunk_index : Nat
  text : String
  priority : String

/-- Store response body, from the `StoreResponse` model. -/
structure StoreResponse where
  ok : Bool
  id : String
  dim : Nat

/-- Shared application context, from `AppState` (the `loaded_at` timestamp is
not modelled). -/
structure AppState where
  model : Option (String → List ℝ)
  index : Option (RagIndex ℝ)

/-- Readiness, from `AppState.ready`. -/
def AppState.ready (st : AppState) : Bool := st.model.isSome && st.index.isSome

/-- Service-level errors raised by the endpoints, one constructor per
distinct `HTTPException` site relevant to the modelled paths. -/
inductive SvcError where
  | notReady : SvcError
  | invalidPriority (p : String) : SvcError
  | reloadFailed (e : LoadError) : SvcError
  | storedButReloadFailed (e : LoadError) : SvcError
  | rowNotFound : SvcError
  deriving Repr, DecidableEq

/-- Natural key of a persisted row. -/
def natKey (r : DBRow) : String × String × Nat := (r.source_path, r.kind, r.chunk_index)

/-- Natural key of a store request. -/
def reqKey (req : StoreRequest) : String × String × Nat :=
  (req.source_path, req.kind, req.chunk_index)

/-- Characters removed by Python's default `strip()`. -/
def isStripChar (c : Char) : Bool := c = ' ' || c = '\t' || c = '\n' || c = '\r'

/-- Priority normalization, from `(req.priority or "normal").strip().lower()`:
an empty priority falls back to `"normal"`, surrounding whitespace is
stripped, and the characters are lowercased. -/
def normPriority (p : String) : String :=
  let base := if p = "" then "normal" else p
  let stripped := ((base.data.dropWhile isStripChar).reverse.dropWhile isStripChar).reverse
  String.mk (stripped.map Char.toLower)

/-- Conflict update of an existing row, from the `ON CONFLICT ... DO UPDATE
SET` clause: priority, text, emb, dim, created_at change; id is untouched. -/
def updateRow (r new : DBRow) : DBRow :=
  { r with priority := new.priority, text := new.text, emb := new.emb,
           dim := new.dim, created_at := new.created_at }

/-- Upsert keyed on the natural key, from the `INSERT ... ON CONFLICT`
statement: update the conflicting row if one exists, else append. -/
def upsertRow (db : List DBRow) (new : DBRow) : List DBRow :=
  if db.any (fun r => natKey r = natKey new) then
    db.map (fun r => if natKey r = natKey new then updateRow r new else r)
  else db ++ [new]

/-- First row with the given natural key, from the re-read
`SELECT id, dim FROM rag_chunks WHERE source_path=? AND kind=? AND chunk_index=?`. -/
def lookupRow (db : List DBRow) (k : String × String × Nat) : Option DBRow :=
  db.find? (fun r => natKey r = k)

/-- Explicit reload, from the `/reload_index` endpoint: requires the model,
swaps in a fresh snapshot on success, and keeps the old state on failure. -/
noncomputable def reload_index (st : AppState) (db : List DBRow) :
    AppState × Except SvcError Nat :=
  match st.model with
  | none => (st, .error .notReady)
  | some _ =>
      match load_index_from_db db with
      | .ok i => ({ st with index := some i }, .ok i.emb_matrix.length)
      | .error e => (st, .error (.reloadFailed e))

/-- Fresh row assembled by the store path: generated id, request fields, the
normalized priority, the embedding of the text and its length as `dim`. -/
def newRowOf (enc : String → List ℝ) (req : StoreRequest) (new_id created_at : String) :
    DBRow :=
  ⟨new_id, req.source_path, req.kind, req.chunk_index, some (normPriority req.priority),
   req.text, enc req.text, (enc req.text).length, created_at⟩

/-- Store path, from the `/store` endpoint: readiness check, priority
validation, embedding, upsert, durability re-read, then snapshot rebuild.
`new_id` and `created_at` stand for the generated uuid and timestamp. -/
noncomputable def store (st : AppState) (db : List DBRow) (req : StoreRequest)
    (new_id created_at : String) : AppState × List DBRow × Except SvcError StoreResponse :=
  if st.ready = true then
    match st.model with
    | none => (st, db, .error .notReady)
    | some enc =>
        if normPriority req.priority ∈ PRIORITIES then
          let db' := upsertRow db (newRowOf enc req new_id created_at)
          match lookupRow db' (reqKey req) with
          | none => (st, db', .error .rowNotFound)
          | some row =>
              match load_index_from_db db' with
              | .ok i => ({ st with index := some i }, db', .ok ⟨true, row.id, row.dim⟩)
              | .error e => (st, db', .error (.storedButReloadFailed e))
        else (st, db, .error (.invalidPriority req.priority))
  else (st, db, .error .notReady)

/-- Startup, from the `_startup` lifecycle hook: the model loads first; if
the initial snapshot build fails the exception propagates and the index slot
stays empty, so the service reports not-ready. -/
noncomputable def startup (enc : String → List ℝ) (db : List DBRow) :
    AppState × Except LoadError Unit :=
  match load_index_from_db db with
  | .ok i => ({ model := some enc, index := some i }, .ok ())
  | .error e => ({ model := some enc, index := none }, .error e)

/-- Concrete three-row snapshot over `ℤ` used by witnesses. -/
def cIdxW : RagIndex ℤ :=
  ⟨["a", "b", "c"], ["j", "j", "k"], [0, 1, 2], ["normal", "high", "normal"],
   ["ta", "tb", "tc"], [[1, 0], [0, 1], [1, 1]]⟩

/-- Concrete one-row snapshot over `ℤ` used by counterexamples. -/
def cTinyW : RagIndex ℤ :=
  ⟨["p"], ["journal"], [0], ["normal"], ["t"], [[1]]⟩

/-- Concrete persisted row with a priority string outside the allowed set
and a zero embedding, used by loader witnesses. -/
def cR7a : DBRow := ⟨"id1", "p", "knowledge", 0, some "weird", "t", [0, 0], 2, "ts"⟩

/-- Concrete one-row store for the normalization witness. -/
def cRows7 : List DBRow := [cR7a]

/-- Concrete persisted row whose priority column is NULL. -/
def cR10a : DBRow := ⟨"idA", "p", "k", 0, none, "t", [0], 1, "ts"⟩

/-- Concrete one-row store for the priority-invariant witness. -/
def cRows10 : List DBRow := [cR10a]

/-- Concrete row of dimension one. -/
def cR4a : DBRow := ⟨"a", "p", "k", 0, some "normal", "t", [0], 1, "ts"⟩

/-- Concrete row of dimension two, conflicting with `cR4a`. -/
def cR4b : DBRow := ⟨"b", "q", "k", 0, some "normal", "t", [0, 0], 2, "ts"⟩

/-- Concrete row for the alignment witness. -/
def cR9a : DBRow := ⟨"idB", "doc.md", "journal", 3, some "high", "txt", [0, 0, 0], 3, "ts"⟩

/-- Concrete one-row store for the alignment witness. -/
def cRows9 : List DBRow := [cR9a]

/-- Placeholder installed snapshot used to put concrete states in the ready
condition. -/
def cEmptySnap : RagIndex ℝ := ⟨[], [], [], [], [], []⟩

/-- Stub embedding provider returning one-dimensional vectors. -/
def cEnc5 : String → List ℝ := fun _ => [0]

/-- Ready concrete application state with the one-dimensional provider. -/
def cStW : AppState := ⟨some cEnc5, some cEmptySnap⟩

/-- Concrete store whose rows disagree on `dim`, so every rebuild fails. -/
def cDb5 : List DBRow := [cR4a, cR4b]

/-- Concrete store request whose natural key is absent from `cDb5`. -/
def cReq5 : StoreRequest := ⟨"x.md", "journal", 5, "sometext", "normal"⟩

/-- Stub embedding provider returning two-dimensional vectors. -/
def cEnc3 : String → List ℝ := fun _ => [0, 0]

/-- Pre-existing persisted row for the upsert-idempotence witness. -/
def cR3a : DBRow := ⟨"orig-id", "s.md", "journal", 0, some "normal", "old text", [1, 0], 2, "t0"⟩

/-- Concrete one-row store holding `cR3a`. -/
def cDb3 : List DBRow := [cR3a]

/-- Ready concrete application state with the two-dimensional provider. -/
def cSt3 : AppState := ⟨some cEnc3, some cEmptySnap⟩

/-- First store request on `cR3a`'s natural key, changing text and
priority. -/
def cReq3a : StoreRequest := ⟨"s.md", "journal", 0, "new text", "high"⟩

/-- Second store request on the same natural key. -/
def cReq3b : StoreRequest := ⟨"s.md", "journal", 0, "newer text", "normal"⟩

/-- Row written by the first witness store call. -/
def cNew3a : DBRow := newRowOf cEnc3 cReq3a "n1" "t1"

/-- Row written by the second witness store call. -/
def cNew3b : DBRow := newRowOf cEnc3 cReq3b "n2" "t2"

/-- Deterministic stub embedding provider mapping every text to the unit
vector `[1]`. -/
def cEncX : String → List ℝ := fun _ => [1]

/-- Pre-existing persisted row whose embedding collides with the stub
provider's output. -/
def cRowA : DBRow := ⟨"ida", "a.md", "journal", 0, some "normal", "other text", [1], 1, "t0"⟩

/-- Concrete one-row store holding `cRowA`. -/
def cDbX : List DBRow := [cRowA]

/-- Ready concrete application state with the stub provider. -/
def cStX : AppState := ⟨some cEncX, some cEmptySnap⟩

/-- Store request for chunk X, whose natural key is absent from `cDbX`. -/
def cReqX : StoreRequest := ⟨"b.md", "journal", 0, "query text", "normal"⟩

/-- Row written for chunk X by the store call. -/
def cNewX : DBRow := newRowOf cEncX cReqX "nid" "ts"

/-- Row list after storing chunk X over `cDbX`. -/
def cDbX' : List DBRow := [cRowA, cNewX]

/-- Snapshot built from a nonempty, dimension-consistent row list. -/
noncomputable def builtIndex (rows : List DBRow) : RagIndex ℝ :=
  { source_path := rows.map (fun r => r.source_path)
    kind := rows.map (fun r => r.kind)
    chunk_index := rows.map (fun r => r.chunk_index)
    priority := rows.map (fun r => loadPriority r.priority)
    text := rows.map (fun r => r.text)
    emb_matrix := rows.map (fun r => normalizeRow (r.emb.take r.dim)) }

/-- Equality of the payload columns that the conflict-update path rewrites. -/
def samePayload (a b : DBRow) : Prop :=
  a.priority = b.priority ∧ a.text = b.text ∧ a.emb = b.emb ∧
    a.dim = b.dim ∧ a.created_at = b.created_at

/-- Uniqueness of natural keys, the invariant of `ux_rag_chunks_sp_kind_idx`. -/
def natKeysNodup (db : List DBRow) : Prop := (db.map natKey).Nodup

section VectorLemmas

variable {α : Type} [LinearOrderedCommRing α]

lemma dot_nil_left (w : List α) : dot ([] : List α) w = 0 := rfl

lemma dot_nil_right (v : List α) : dot v ([] : List α) = 0 := by
  simp [dot]

lemma dot_cons (x y : α) (v w : List α) :
    dot (x :: v) (y :: w) = x * y + dot v w := by
  simp [dot]

lemma sumSq_nil : sumSq ([] : List α) = 0 := rfl

lemma sumSq_cons (x : α) (v : List α) : sumSq (x :: v) = x * x + sumSq v := by
  simp [sumSq]

lemma sumSq_nonneg (v : List α) : 0 ≤ sumSq v := by
  induction v with
  | nil => simp [sumSq]
  | cons x v ih => rw [sumSq_cons]; exact add_nonneg (mul_self_nonneg x) ih

lemma dot_self (v : List α) : dot v v = sumSq v := by
  induction v with
  | nil => rfl
  | cons x v ih => rw [dot_cons, sumSq_cons, ih]

lemma two_dot_le (v w : List α) : 2 * dot v w ≤ sumSq v + sumSq w := by
  induction v generalizing w with
  | nil =>
      rw [dot_nil_left, mul_zero]
      exact add_nonneg (sumSq_nonneg _) (sumSq_nonneg _)
  | cons x v ih =>
      cases w with
      | nil =>
          rw [dot_nil_right, mul_zero]
          exact add_nonneg (sumSq_nonneg _) (sumSq_nonneg _)
      | cons y w =>
          rw [dot_cons, sumSq_cons, sumSq_cons]
          have h1 := ih w
          nlinarith [sq_nonneg (x - y)]

lemma dot_le_one (v w : List α) (hv : sumSq v = 1) (hw : sumSq w = 1) :
    dot v w ≤ 1 := by
  have h := two_dot_le v w
  rw [hv, hw] at h
  linarith

lemma sumSq_zipSub (v : List α) : ∀ (w : List α), v.length = w.length →
    sumSq (List.zipWith (fun a b => a - b) v w) = sumSq v - 2 * dot v w + sumSq w := by
  induction v with
  | nil =>
      intro w h
      cases w with
      | nil => simp [sumSq, dot]
      | cons y w => simp at h
  | cons x v ih =>
      intro w h
      cases w with
      | nil => simp at h
      | cons y w =>
          simp only [List.length_cons, Nat.add_right_cancel_iff] at h
          rw [List.zipWith_cons_cons, sumSq_cons, sumSq_cons, sumSq_cons, dot_cons, ih w h]
          ring

lemma sumSq_eq_zero_mem (v : List α) (h : sumSq v = 0) : ∀ x ∈ v, x = 0 := by
  induction v with
  | nil => intro x hx; cases hx
  | cons a v ih =>
      rw [sumSq_cons] at h
      have ha : a * a = 0 := by nlinarith [mul_self_nonneg a, sumSq_nonneg v]
      have hv : sumSq v = 0 := by nlinarith [mul_self_nonneg a, sumSq_nonneg v]
      intro x hx
      rcases List.mem_cons.mp hx with rfl | hx
      · exact mul_self_eq_zero.mp ha
      · exact ih hv x hx

lemma dot_eq_zero_left (v : List α) : ∀ (w : List α), (∀ x ∈ v, x = 0) → dot v w = 0 := by
  induction v with
  | nil => intro w _; rfl
  | cons x v ih =>
      intro w h
      cases w with
      | nil => exact dot_nil_right _
      | cons y w =>
          rw [dot_cons, h x (List.mem_cons_self x v), zero_mul, zero_add]
          exact ih w (fun a ha => h a (List.mem_cons_of_mem _ ha))

lemma eq_of_zipSub_zero (v : List α) : ∀ (w : List α), v.length = w.length →
    (∀ x ∈ List.zipWith (fun a b => a - b) v w, x = 0) → v = w := by
  induction v with
  | nil =>
      intro w h _
      cases w with
      | nil => rfl
      | cons y w => simp at h
  | cons x v ih =>
      intro w h hz
      cases w with
      | nil => simp at h
      | cons y w =>
          simp only [List.length_cons, Nat.add_right_cancel_iff] at h
          rw [List.zipWith_cons_cons] at hz
          have hx : x - y = 0 := hz _ (List.mem_cons_self _ _)
          have ht : v = w :=
            ih w h (fun a ha => hz a (List.mem_cons_of_mem _ ha))
          rw [sub_eq_zero.mp hx, ht]

lemma eq_of_dot_eq_one (v w : List α) (hv : sumSq v = 1) (hw : sumSq w = 1)
    (hl : v.length = w.length) (hd : dot v w = 1) : v = w := by
  have hs : sumSq (List.zipWith (fun a b => a - b) v w) = 0 := by
    rw [sumSq_zipSub v w hl, hv, hw, hd]
    ring
  exact eq_of_zipSub_zero v w hl (sumSq_eq_zero_mem _ hs)

end VectorLemmas

section NormalizeLemmas

lemma l2norm_nonneg (v : List ℝ) : 0 ≤ l2norm v := Real.sqrt_nonneg _

lemma l2norm_pos_iff (v : List ℝ) : 0 < l2norm v ↔ 0 < sumSq v := Real.sqrt_pos

lemma l2norm_eq_zero_iff (v : List ℝ) : l2norm v = 0 ↔ sumSq v = 0 := by
  unfold l2norm
  constructor
  · intro h
    exact le_antisymm (Real.sqrt_eq_zero'.mp h) (sumSq_nonneg v)
  · intro h
    rw [h, Real.sqrt_zero]

lemma mul_self_l2norm (v : List ℝ) : l2norm v * l2norm v = sumSq v :=
  Real.mul_self_sqrt (sumSq_nonneg v)

lemma sumSq_map_div (v : List ℝ) (c : ℝ) :
    sumSq (v.map (fun x => x / c)) = sumSq v / (c * c) := by
  induction v with
  | nil => simp [sumSq]
  | cons x v ih =>
      rw [List.map_cons, sumSq_cons, sumSq_cons, ih]
      ring

lemma sumSq_normalizeRow (v : List ℝ) (h : 0 < l2norm v) :
    sumSq (normalizeRow v) = 1 := by
  unfold normalizeRow
  rw [if_pos h, sumSq_map_div, mul_self_l2norm]
  have hne : sumSq v ≠ 0 := ne_of_gt ((l2norm_pos_iff v).mp h)
  field_simp

lemma normalizeRow_of_norm_eq_zero (v : List ℝ) (h : l2norm v = 0) :
    normalizeRow v = v := by
  unfold normalizeRow
  rw [if_neg]
  rw [h]
  exact lt_irrefl 0

lemma dot_normalizeRow_zero (v q : List ℝ) (h : l2norm v = 0) :
    dot (normalizeRow v) q = 0 := by
  rw [normalizeRow_of_norm_eq_zero v h]
  exact dot_eq_zero_left v q (sumSq_eq_zero_mem v ((l2norm_eq_zero_iff v).mp h))

lemma normalizeRow_unit (v : List ℝ) (h : sumSq v = 1) : normalizeRow v = v := by
  unfold normalizeRow l2norm
  rw [h, Real.sqrt_one, if_pos one_pos]
  simp

lemma normalizeRow_length (v : List ℝ) : (normalizeRow v).length = v.length := by
  unfold normalizeRow
  split
  · simp
  · rfl

lemma normalizeRow_unit_or_zero (v : List ℝ) :
    sumSq (normalizeRow v) = 1 ∨ (normalizeRow v = v ∧ sumSq v = 0) := by
  by_cases h : 0 < l2norm v
  · exact Or.inl (sumSq_normalizeRow v h)
  · have h0 : l2norm v = 0 := le_antisymm (not_lt.mp h) (l2norm_nonneg v)
    exact Or.inr ⟨normalizeRow_of_norm_eq_zero v h0, (l2norm_eq_zero_iff v).mp h0⟩

end NormalizeLemmas

section CandIdxLemmas

lemma candIdx_none {α : Type} (s : RagIndex α) :
    candIdx s none = List.range s.emb_matrix.length := rfl

lemma candIdx_some {α : Type} (s : RagIndex α) (f : String) :
    candIdx s (some f) =
      if f = "" then List.range s.emb_matrix.length
      else (List.range s.kind.length).filter (fun i => s.kind.getD i "" = f) := rfl

lemma mem_candIdx_none {α : Type} {s : RagIndex α} {i : Nat} :
    i ∈ candIdx s none ↔ i < s.emb_matrix.length := by
  rw [candIdx_none]
  exact List.mem_range

lemma mem_candIdx_some {α : Type} {s : RagIndex α} {f : String} (hf : f ≠ "") {i : Nat} :
    i ∈ candIdx s (some f) ↔ i < s.kind.length ∧ s.kind.getD i "" = f := by
  rw [candIdx_some, if_neg hf]
  simp [List.mem_filter]

lemma candIdx_nodup {α : Type} (s : RagIndex α) (kf : Option String) :
    (candIdx s kf).Nodup := by
  match kf with
  | none =>
      rw [candIdx_none]
      exact List.nodup_range _
  | some f =>
      rw [candIdx_some]
      by_cases hf : f = ""
      · rw [if_pos hf]
        exact List.nodup_range _
      · rw [if_neg hf]
        exact (List.nodup_range _).filter _

lemma mem_candIdx_lt {α : Type} {s : RagIndex α} {kf : Option String} {i : Nat}
    (h : i ∈ candIdx s kf) : i < s.emb_matrix.length ∨ i < s.kind.length := by
  match kf with
  | none => exact Or.inl (mem_candIdx_none.mp h)
  | some f =>
      rw [candIdx_some] at h
      by_cases hf : f = ""
      · rw [if_pos hf] at h
        exact Or.inl (List.mem_range.mp h)
      · rw [if_neg hf] at h
        exact Or.inr (List.mem_range.mp (List.mem_filter.mp h).1)

end CandIdxLemmas

section RetrieveLemmas

variable {α : Type} [LinearOrderedCommRing α]

lemma rankLe_score {a b : Nat × α} (h : rankLe a b) : b.2 ≤ a.2 := by
  rcases h with h | ⟨h, _⟩
  · exact le_of_lt h
  · exact le_of_eq h.symm

lemma scoredList_mem {s : RagIndex α} {qv : List α} {kf : Option String} {p : Nat × α}
    (h : p ∈ scoredList s qv kf) : p.1 ∈ candIdx s kf ∧ p.2 = scoreAt s qv p.1 := by
  unfold scoredList at h
  rcases List.mem_map.mp h with ⟨i, hi, rfl⟩
  exact ⟨hi, rfl⟩

lemma scoredList_length (s : RagIndex α) (qv : List α) (kf : Option String) :
    (scoredList s qv kf).length = (candIdx s kf).length := by
  unfold scoredList
  rw [List.length_map]

lemma retrievePairs_subset {s : RagIndex α} {qv : List α} {topk : Nat} {kf : Option String}
    {p : Nat × α} (h : p ∈ retrievePairs s qv topk kf) : p ∈ scoredList s qv kf := by
  unfold retrievePairs at h
  exact (List.perm_insertionSort rankLe _).mem_iff.mp ((List.take_sublist _ _).subset h)

lemma retrievePairs_length (s : RagIndex α) (qv : List α) (topk : Nat) (kf : Option String) :
    (retrievePairs s qv topk kf).length = min topk (candidateCount s kf) := by
  have hlen : (List.insertionSort rankLe (scoredList s qv kf)).length =
      (candIdx s kf).length := by
    rw [(List.perm_insertionSort rankLe _).length_eq, scoredList_length]
  unfold retrievePairs candidateCount
  rw [List.length_take, hlen]
  exact min_eq_left (min_le_right _ _)

lemma retrieve_length_eq (s : RagIndex α) (qv : List α) (topk : Nat) (kf : Option String) :
    (retrieve s qv topk kf).length = min topk (candidateCount s kf) := by
  unfold retrieve
  rw [List.length_map, retrievePairs_length]

lemma retrievePairs_pairwise (s : RagIndex α) (qv : List α) (topk : Nat) (kf : Option String) :
    (retrievePairs s qv topk kf).Pairwise rankLe :=
  List.Pairwise.sublist (List.take_sublist _ _) (List.sorted_insertionSort rankLe _)

lemma scoredList_fst_nodup (s : RagIndex α) (qv : List α) (kf : Option String) :
    (scoredList s qv kf).Pairwise (fun a b => a.1 ≠ b.1) := by
  unfold scoredList
  exact List.Pairwise.map _ (fun a b h => by simpa using h) (candIdx_nodup s kf)

lemma retrievePairs_fst_nodup (s : RagIndex α) (qv : List α) (topk : Nat) (kf : Option String) :
    (retrievePairs s qv topk kf).Pairwise (fun a b => a.1 ≠ b.1) := by
  unfold retrievePairs
  refine List.Pairwise.sublist (List.take_sublist _ _) ?_
  exact ((List.perm_insertionSort rankLe _).pairwise_iff
    (fun h => h.symm)).mpr (scoredList_fst_nodup s qv kf)

lemma mem_scoredList_none {s : RagIndex α} {qv : List α} {p : Nat} (hp : p < s.emb_matrix.length) :
    (p, scoreAt s qv p) ∈ scoredList s qv none := by
  unfold scoredList
  exact List.mem_map.mpr ⟨p, mem_candIdx_none.mpr hp, rfl⟩

lemma retrieve_mem_char {s : RagIndex α} {qv : List α} {k : Nat} {kf : Option String}
    {c : RetrievedChunk α} (hc : c ∈ retrieve s qv k kf) :
    ∃ i, i ∈ candIdx s kf ∧ c = mkChunk s i (scoreAt s qv i) := by
  unfold retrieve at hc
  rcases List.mem_map.mp hc with ⟨p, hp, rfl⟩
  obtain ⟨hi, hsc⟩ := scoredList_mem (retrievePairs_subset hp)
  exact ⟨p.1, hi, by rw [hsc]⟩

lemma retrieve_no_match (s : RagIndex α) (qv : List α) (k : Nat) (f : String) (hf : f ≠ "")
    (hnone : f ∉ s.kind) : retrieve s qv k (some f) = [] := by
  have hc : candIdx s (some f) = [] := by
    rw [candIdx_some, if_neg hf]
    apply List.filter_eq_nil_iff.mpr
    intro i hi
    simp only [decide_eq_true_eq]
    intro he
    have hmem : s.kind.getD i "" ∈ s.kind := by
      rw [List.getD_eq_getElem _ _ (List.mem_range.mp hi)]
      exact List.getElem_mem _
    exact hnone (he ▸ hmem)
  simp [retrieve, retrievePairs, scoredList, hc]

lemma retrieve_head_of_top (s : RagIndex α) (qv : List α) (k : Nat) (hk : 1 ≤ k)
    (hN : 1 ≤ s.emb_matrix.length)
    (p : Nat) (hp : p < s.emb_matrix.length) (hps : scoreAt s qv p = 1)
    (hle : ∀ j, j < s.emb_matrix.length → scoreAt s qv j ≤ 1)
    (t : RetrievedChunk α)
    (hF : ∀ j, j < s.emb_matrix.length → scoreAt s qv j = 1 →
      mkChunk s j (scoreAt s qv j) = t) :
    (retrieve s qv k none).head? = some t := by
  set L := List.insertionSort rankLe (scoredList s qv none) with hL
  have hperm : L.Perm (scoredList s qv none) := List.perm_insertionSort rankLe _
  have hlen : L.length = s.emb_matrix.length := by
    rw [hperm.length_eq, scoredList_length, candIdx_none, List.length_range]
  have hmemp : (p, scoreAt s qv p) ∈ L :=
    hperm.mem_iff.mpr (mem_scoredList_none hp)
  cases hLc : L with
  | nil =>
      rw [hLc] at hlen
      simp at hlen
      omega
  | cons h0 ttl =>
      have hsorted : L.Pairwise rankLe := List.sorted_insertionSort rankLe _
      rw [hLc] at hsorted
      have hrest : ∀ x ∈ ttl, rankLe h0 x := (List.pairwise_cons.mp hsorted).1
      have h0mem : h0 ∈ scoredList s qv none := by
        apply hperm.mem_iff.mp
        rw [hLc]
        exact List.mem_cons_self _ _
      obtain ⟨hj, hsc⟩ := scoredList_mem h0mem
      have hjlt : h0.1 < s.emb_matrix.length := mem_candIdx_none.mp hj
      have hone : h0.2 = 1 := by
        rw [hLc] at hmemp
        rcases List.mem_cons.mp hmemp with he | he
        · rw [← he, hps]
        · have h1 : (1 : α) ≤ h0.2 := by
            have := rankLe_score (hrest _ he)
            rwa [hps] at this
          have h2 : h0.2 ≤ 1 := by
            rw [hsc]
            exact hle h0.1 hjlt
          exact le_antisymm h2 h1
      have hm1 : 1 ≤ min k L.length := by
        rw [hlen]
        exact le_min hk hN
      obtain ⟨m, hm⟩ : ∃ m, min k s.emb_matrix.length = m + 1 := by
        rw [hlen] at hm1
        exact ⟨min k s.emb_matrix.length - 1, by omega⟩
      have hcand : (candIdx s (none : Option String)).length = s.emb_matrix.length := by
        rw [candIdx_none, List.length_range]
      unfold retrieve retrievePairs
      rw [← hL, hLc, hcand, hm, List.take_succ_cons, List.map_cons, List.head?_cons]
      have : mkChunk s h0.1 h0.2 = t := by
        rw [hsc]
        exact hF h0.1 hjlt (by rw [← hsc, hone])
      rw [this]

end RetrieveLemmas

section LoadLemmas

lemma loadRow_ok {dim0 : Nat} {r : DBRow} (h1 : r.dim = dim0) (h2 : r.dim ≤ r.emb.length) :
    loadRow dim0 r = .ok (normalizeRow (r.emb.take r.dim)) := by
  unfold loadRow
  rw [if_neg (not_not_intro h1), if_neg (Nat.not_lt.mpr h2)]

lemma loadRow_ok_elim {dim0 : Nat} {r : DBRow} {v : List ℝ}
    (h : loadRow dim0 r = .ok v) :
    r.dim = dim0 ∧ r.dim ≤ r.emb.length ∧ v = normalizeRow (r.emb.take r.dim) := by
  unfold loadRow at h
  by_cases h1 : r.dim ≠ dim0
  · rw [if_pos h1] at h
    cases h
  · rw [if_neg h1] at h
    by_cases h2 : r.emb.length < r.dim
    · rw [if_pos h2] at h
      cases h
    · rw [if_neg h2] at h
      cases h
      exact ⟨not_not.mp h1, Nat.not_lt.mp h2, rfl⟩

lemma loadRows_ok_of {dim0 : Nat} (rows : List DBRow)
    (h : ∀ r ∈ rows, r.dim = dim0 ∧ r.dim ≤ r.emb.length) :
    loadRows dim0 rows = .ok (rows.map (fun r => normalizeRow (r.emb.take r.dim))) := by
  induction rows with
  | nil => rfl
  | cons r rs ih =>
      obtain ⟨h1, h2⟩ := h r (List.mem_cons_self _ _)
      rw [loadRows, loadRow_ok h1 h2, ih (fun a ha => h a (List.mem_cons_of_mem _ ha))]
      rfl

lemma loadRows_ok_elim {dim0 : Nat} : ∀ {rows : List DBRow} {embs : List (List ℝ)},
    loadRows dim0 rows = .ok embs →
    (∀ r ∈ rows, r.dim = dim0 ∧ r.dim ≤ r.emb.length) ∧
      embs = rows.map (fun r => normalizeRow (r.emb.take r.dim)) := by
  intro rows
  induction rows with
  | nil =>
      intro embs h
      rw [loadRows] at h
      cases h
      exact ⟨fun r hr => absurd hr (List.not_mem_nil r), rfl⟩
  | cons r rs ih =>
      intro embs h
      rw [loadRows] at h
      cases hlr : loadRow dim0 r with
      | error e =>
          rw [hlr] at h
          cases h
      | ok v =>
          rw [hlr] at h
          cases hlrs : loadRows dim0 rs with
          | error e =>
              rw [hlrs] at h
              cases h
          | ok vs =>
              rw [hlrs] at h
              cases h
              obtain ⟨hd, hlen, hv⟩ := loadRow_ok_elim hlr
              obtain ⟨hall, hvs⟩ := ih hlrs
              constructor
              · intro a ha
                rcases List.mem_cons.mp ha with rfl | ha
                · exact ⟨hd, hlen⟩
                · exact hall a ha
              · rw [List.map_cons, ← hv, ← hvs]

lemma loadRows_error_dim {dim0 : Nat} : ∀ (rows : List DBRow),
    (∀ r ∈ rows, r.dim ≤ r.emb.length) →
    (∃ r ∈ rows, r.dim ≠ dim0) →
    ∃ g, g ≠ dim0 ∧ loadRows dim0 rows = .error (.dimMismatch g dim0) := by
  intro rows
  induction rows with
  | nil =>
      intro _ hex
      obtain ⟨r, hr, _⟩ := hex
      cases hr
  | cons r rs ih =>
      intro hbuf hex
      by_cases h1 : r.dim = dim0
      · obtain ⟨r', hr', hne⟩ := hex
        have hr'tail : r' ∈ rs := by
          rcases List.mem_cons.mp hr' with rfl | h
          · exact absurd h1 hne
          · exact h
        obtain ⟨g, hg, hrec⟩ :=
          ih (fun a ha => hbuf a (List.mem_cons_of_mem _ ha)) ⟨r', hr'tail, hne⟩
        refine ⟨g, hg, ?_⟩
        rw [loadRows, loadRow_ok h1 (hbuf r (List.mem_cons_self _ _)), hrec]
      · refine ⟨r.dim, h1, ?_⟩
        rw [loadRows, show loadRow dim0 r = .error (.dimMismatch r.dim dim0) from by
          unfold loadRow
          rw [if_pos h1]]

lemma load_index_ok_of (r0 : DBRow) (rs : List DBRow)
    (h : ∀ r ∈ r0 :: rs, r.dim = r0.dim ∧ r.dim ≤ r.emb.length) :
    load_index_from_db (r0 :: rs) = .ok (builtIndex (r0 :: rs)) := by
  rw [load_index_from_db, loadRows_ok_of _ h]
  rfl

lemma load_index_ok_elim {rows : List DBRow} {s : RagIndex ℝ}
    (h : load_index_from_db rows = .ok s) :
    ∃ r0 rs, rows = r0 :: rs ∧
      (∀ r ∈ rows, r.dim = r0.dim ∧ r.dim ≤ r.emb.length) ∧ s = builtIndex rows := by
  cases rows with
  | nil =>
      rw [load_index_from_db] at h
      cases h
  | cons r0 rs =>
      rw [load_index_from_db] at h
      cases hlr : loadRows r0.dim (r0 :: rs) with
      | error e =>
          rw [hlr] at h
          cases h
      | ok embs =>
          rw [hlr] at h
          obtain ⟨hall, hembs⟩ := loadRows_ok_elim hlr
          cases h
          exact ⟨r0, rs, rfl, hall, by rw [builtIndex, ← hembs]⟩

lemma load_index_error_dim (r0 : DBRow) (rs : List DBRow)
    (hbuf : ∀ r ∈ r0 :: rs, r.dim ≤ r.emb.length)
    (hex : ∃ r ∈ r0 :: rs, r.dim ≠ r0.dim) :
    ∃ g, g ≠ r0.dim ∧
      load_index_from_db (r0 :: rs) = .error (.dimMismatch g r0.dim) := by
  obtain ⟨g, hg, hrows⟩ := loadRows_error_dim (r0 :: rs) hbuf hex
  refine ⟨g, hg, ?_⟩
  rw [load_index_from_db, hrows]

lemma builtIndex_source_path (rows : List DBRow) :
    (builtIndex rows).source_path = rows.map (fun r => r.source_path) := rfl

lemma builtIndex_kind (rows : List DBRow) :
    (builtIndex rows).kind = rows.map (fun r => r.kind) := rfl

lemma builtIndex_chunk_index (rows : List DBRow) :
    (builtIndex rows).chunk_index = rows.map (fun r => r.chunk_index) := rfl

lemma builtIndex_priority (rows : List DBRow) :
    (builtIndex rows).priority = rows.map (fun r => loadPriority r.priority) := rfl

lemma builtIndex_text (rows : List DBRow) :
    (builtIndex rows).text = rows.map (fun r => r.text) := rfl

lemma builtIndex_emb_matrix (rows : List DBRow) :
    (builtIndex rows).emb_matrix = rows.map (fun r => normalizeRow (r.emb.take r.dim)) := rfl

lemma loadPriority_some (s : String) :
    loadPriority (some s) = if s ∈ PRIORITIES then s else "normal" := rfl

lemma loadPriority_mem (o : Option String) :
    loadPriority o = "normal" ∨ loadPriority o = "high" := by
  match o with
  | none => exact Or.inl rfl
  | some s =>
      rw [loadPriority_some]
      by_cases hs : s ∈ PRIORITIES
      · rw [if_pos hs]
        rcases List.mem_cons.mp hs with h | h
        · exact Or.inl h
        · exact Or.inr (List.mem_singleton.mp h)
      · rw [if_neg hs]
        exact Or.inl rfl

lemma getD_map_lt {β γ : Type} (f : β → γ) (l : List β) (d : γ) {i : Nat}
    (hi : i < l.length) : (l.map f).getD i d = f l[i] := by
  rw [List.getD_eq_getElem _ _ (by rw [List.length_map]; exact hi), List.getElem_map]

end LoadLemmas

section UpsertLemmas

lemma natKey_updateRow (r new : DBRow) : natKey (updateRow r new) = natKey r := rfl

lemma updateRow_id (r new : DBRow) : (updateRow r new).id = r.id := rfl

lemma samePayload_updateRow (r new : DBRow) : samePayload (updateRow r new) new :=
  ⟨rfl, rfl, rfl, rfl, rfl⟩

lemma upsert_mem_char {db : List DBRow} {new r' : DBRow} (h : r' ∈ upsertRow db new) :
    (natKey r' = natKey new → samePayload r' new) ∧
      (natKey r' ≠ natKey new → r' ∈ db) := by
  unfold upsertRow at h
  split at h
  · rcases List.mem_map.mp h with ⟨a, ha, hr'⟩
    by_cases hk : natKey a = natKey new
    · rw [if_pos hk] at hr'
      constructor
      · intro _
        rw [← hr']
        exact samePayload_updateRow a new
      · intro hne
        exact absurd (by rw [← hr', natKey_updateRow, hk]) hne
    · rw [if_neg hk] at hr'
      constructor
      · intro he
        rw [← hr'] at he
        exact absurd he hk
      · intro _
        rw [← hr']
        exact ha
  · next hany =>
    rcases List.mem_append.mp h with hdb | hnew
    · constructor
      · intro he
        have : ∀ r ∈ db, ¬(natKey r = natKey new) := by
          intro r hr hkr
          exact hany (List.any_eq_true.mpr ⟨r, hr, by simp [hkr]⟩)
        exact absurd he (this r' hdb)
      · intro _
        exact hdb
    · rcases List.mem_singleton.mp hnew with rfl
      constructor
      · intro _
        exact ⟨rfl, rfl, rfl, rfl, rfl⟩
      · intro hne
        exact absurd rfl hne

lemma upsert_exists_key (db : List DBRow) (new : DBRow) :
    ∃ r' ∈ upsertRow db new, natKey r' = natKey new ∧ samePayload r' new := by
  unfold upsertRow
  split
  · next hany =>
    obtain ⟨a, ha, hk⟩ := List.any_eq_true.mp hany
    have hk' : natKey a = natKey new := by simpa using hk
    refine ⟨updateRow a new, ?_, by rw [natKey_updateRow, hk'], samePayload_updateRow a new⟩
    exact List.mem_map.mpr ⟨a, ha, by rw [if_pos hk']⟩
  · exact ⟨new, List.mem_append.mpr (Or.inr (List.mem_singleton.mpr rfl)),
      rfl, ⟨rfl, rfl, rfl, rfl, rfl⟩⟩

lemma upsert_ne_nil (db : List DBRow) (new : DBRow) : upsertRow db new ≠ [] := by
  intro h
  obtain ⟨r', hr', _, _⟩ := upsert_exists_key db new
  rw [h] at hr'
  exact List.not_mem_nil r' hr'

lemma natKeysNodup_upsert {db : List DBRow} (hnd : natKeysNodup db) (new : DBRow) :
    natKeysNodup (upsertRow db new) := by
  unfold upsertRow
  split
  · have hmap :
        (db.map (fun r => if natKey r = natKey new then updateRow r new else r)).map natKey
          = db.map natKey := by
      rw [List.map_map]
      apply List.map_congr_left
      intro a _
      by_cases hk : natKey a = natKey new
      · simp [hk, natKey_updateRow]
      · simp [hk]
    rw [natKeysNodup, hmap]
    exact hnd
  · next hany =>
    rw [natKeysNodup, List.map_append]
    have hnotin : natKey new ∉ db.map natKey := by
      intro hmem
      rcases List.mem_map.mp hmem with ⟨a, ha, hka⟩
      exact hany (List.any_eq_true.mpr ⟨a, ha, by simp [hka]⟩)
    simp [List.nodup_append, hnd, hnotin]
    exact hnd

lemma lookup_eq_of_nodup : ∀ {db : List DBRow}, natKeysNodup db → ∀ {r0 : DBRow},
    r0 ∈ db → lookupRow db (natKey r0) = some r0 := by
  intro db
  induction db with
  | nil =>
      intro _ r0 hr0
      cases hr0
  | cons a db ih =>
      intro hnd r0 hr0
      have hnd2 : (a :: db).map natKey = natKey a :: db.map natKey := rfl
      have hsplit := List.nodup_cons.mp (by rw [natKeysNodup, hnd2] at hnd; exact hnd)
      rcases List.mem_cons.mp hr0 with rfl | hr
      · unfold lookupRow
        rw [List.find?_cons_of_pos]
        simp
      · have hka : ¬(natKey a = natKey r0) := by
          intro he
          exact hsplit.1 (he ▸ List.mem_map_of_mem natKey hr)
        unfold lookupRow
        rw [List.find?_cons_of_neg]
        · exact ih hsplit.2 hr
        · simp [hka]

lemma mem_upsert_update {db : List DBRow} {r0 : DBRow} (hr0 : r0 ∈ db) {new : DBRow}
    (hk : natKey r0 = natKey new) : updateRow r0 new ∈ upsertRow db new := by
  unfold upsertRow
  rw [if_pos (List.any_eq_true.mpr ⟨r0, hr0, by simp [hk]⟩)]
  exact List.mem_map.mpr ⟨r0, hr0, by rw [if_pos hk]⟩

lemma lookup_upsert_update {db : List DBRow} (hnd : natKeysNodup db) {r0 : DBRow}
    (hr0 : r0 ∈ db) {new : DBRow} (hk : natKey r0 = natKey new) :
    lookupRow (upsertRow db new) (natKey new) = some (updateRow r0 new) := by
  have h := lookup_eq_of_nodup (natKeysNodup_upsert hnd new) (mem_upsert_update hr0 hk)
  rwa [natKey_updateRow, hk] at h

lemma lookup_upsert_some (db : List DBRow) (new : DBRow) :
    ∃ row, lookupRow (upsertRow db new) (natKey new) = some row := by
  obtain ⟨r', hmem, hk, _⟩ := upsert_exists_key db new
  have hsome : (List.find? (fun r => natKey r = natKey new) (upsertRow db new)).isSome :=
    List.find?_isSome.mpr ⟨r', hmem, by simp [hk]⟩
  obtain ⟨row, hrow⟩ := Option.isSome_iff_exists.mp hsome
  exact ⟨row, hrow⟩

end UpsertLemmas

section ServiceLemmas

lemma store_eq {st : AppState} {enc : String → List ℝ} (hm : st.model = some enc)
    (hr : st.ready = true) {req : StoreRequest}
    (hpr : normPriority req.priority ∈ PRIORITIES) (db : List DBRow) (nid ts : String) :
    store st db req nid ts =
      match lookupRow (upsertRow db (newRowOf enc req nid ts)) (reqKey req) with
      | none => (st, upsertRow db (newRowOf enc req nid ts), .error .rowNotFound)
      | some row =>
          match load_index_from_db (upsertRow db (newRowOf enc req nid ts)) with
          | .ok i => ({ st with index := some i }, upsertRow db (newRowOf enc req nid ts),
              .ok ⟨true, row.id, row.dim⟩)
          | .error e => (st, upsertRow db (newRowOf enc req nid ts),
              .error (.storedButReloadFailed e)) := by
  unfold store
  rw [hr, if_pos rfl, hm]
  dsimp only
  rw [if_pos hpr]

lemma natKey_newRowOf (enc : String → List ℝ) (req : StoreRequest) (nid ts : String) :
    natKey (newRowOf enc req nid ts) = reqKey req := rfl

lemma ready_set_index {st : AppState} (hr : st.ready = true) (i : RagIndex ℝ) :
    ({ st with index := some i } : AppState).ready = true := by
  unfold AppState.ready at hr ⊢
  simp only [Bool.and_eq_true] at hr ⊢
  exact ⟨hr.1, rfl⟩

lemma load_index_error_two (r0 r1 : DBRow) (rs : List DBRow)
    (h0 : r0.dim ≤ r0.emb.length) (hne : r1.dim ≠ r0.dim) :
    load_index_from_db (r0 :: r1 :: rs) = .error (.dimMismatch r1.dim r0.dim) := by
  rw [load_index_from_db, loadRows, loadRow_ok rfl h0, loadRows,
    show loadRow r0.dim r1 = .error (.dimMismatch r1.dim r0.dim) from by
      unfold loadRow
      rw [if_pos hne]]

lemma upsert_singleton {r new : DBRow} (hk : natKey r = natKey new) :
    upsertRow [r] new = [updateRow r new] := by
  unfold upsertRow
  rw [if_pos (List.any_eq_true.mpr ⟨r, List.mem_singleton.mpr rfl, by simp [hk]⟩)]
  rw [List.map_cons, List.map_nil, if_pos hk]

lemma retrieve_self_top (dbU : List DBRow) (qv : List ℝ) (hq1 : sumSq qv = 1)
    (s : RagIndex ℝ) (hld : load_index_from_db dbU = .ok s)
    (key : String × String × Nat) (payloadPr : String) (hpl : payloadPr ∈ PRIORITIES)
    (ptext : String)
    (hkeyed : ∀ r ∈ dbU, natKey r = key →
      r.emb = qv ∧ r.dim = qv.length ∧ r.priority = some payloadPr ∧ r.text = ptext)
    (hex : ∃ r ∈ dbU, natKey r = key)
    (hother : ∀ r ∈ dbU, natKey r ≠ key → normalizeRow (r.emb.take r.dim) ≠ qv)
    (k : Nat) (hk : 1 ≤ k) :
    (retrieve s qv k none).head? =
      some ⟨1, key.1, key.2.1, key.2.2, payloadPr, ptext⟩ := by
  obtain ⟨r0, rs, hrows, hall, hsb⟩ := load_index_ok_elim hld
  subst hsb
  subst hrows
  have hqlen : qv.length = r0.dim := by
    obtain ⟨rX, hrX, hkX⟩ := hex
    obtain ⟨_, hdX, _, _⟩ := hkeyed rX hrX hkX
    rw [← (hall rX hrX).1]
    exact hdX.symm
  have hN : (builtIndex (r0 :: rs)).emb_matrix.length = (r0 :: rs).length := by
    rw [builtIndex_emb_matrix, List.length_map]
  have hrowvec : ∀ j, (hj : j < (r0 :: rs).length) →
      (builtIndex (r0 :: rs)).emb_matrix.getD j []
        = normalizeRow ((r0 :: rs)[j].emb.take (r0 :: rs)[j].dim) := by
    intro j hj
    rw [builtIndex_emb_matrix]
    exact getD_map_lt _ _ _ hj
  obtain ⟨rX, hrX, hkX⟩ := hex
  obtain ⟨p, hp, hpe⟩ := List.getElem_of_mem hrX
  have hscore_keyed : ∀ j, (hj : j < (r0 :: rs).length) → natKey (r0 :: rs)[j] = key →
      scoreAt (builtIndex (r0 :: rs)) qv j = 1 := by
    intro j hj hkj
    obtain ⟨hemb, hdim, _, _⟩ := hkeyed _ (List.getElem_mem hj) hkj
    unfold scoreAt
    rw [hrowvec j hj, hemb, hdim, List.take_length, normalizeRow_unit qv hq1, dot_self, hq1]
  have hle : ∀ j, j < (builtIndex (r0 :: rs)).emb_matrix.length →
      scoreAt (builtIndex (r0 :: rs)) qv j ≤ 1 := by
    intro j hj
    rw [hN] at hj
    unfold scoreAt
    rw [hrowvec j hj]
    rcases normalizeRow_unit_or_zero ((r0 :: rs)[j].emb.take (r0 :: rs)[j].dim) with
      hu | ⟨hz, hzs⟩
    · exact dot_le_one _ _ hu hq1
    · rw [hz, dot_eq_zero_left _ qv (sumSq_eq_zero_mem _ hzs)]
      norm_num
  have hsc1 : ∀ j, j < (builtIndex (r0 :: rs)).emb_matrix.length →
      scoreAt (builtIndex (r0 :: rs)) qv j = 1 →
      mkChunk (builtIndex (r0 :: rs)) j (scoreAt (builtIndex (r0 :: rs)) qv j)
        = ⟨1, key.1, key.2.1, key.2.2, payloadPr, ptext⟩ := by
    intro j hj h1
    rw [hN] at hj
    by_cases hkj : natKey (r0 :: rs)[j] = key
    · obtain ⟨hemb, hdim, hprio, htext⟩ := hkeyed _ (List.getElem_mem hj) hkj
      have hsp : (r0 :: rs)[j].source_path = key.1 := congrArg (fun t => t.1) hkj
      have hkd : (r0 :: rs)[j].kind = key.2.1 := congrArg (fun t => t.2.1) hkj
      have hci : (r0 :: rs)[j].chunk_index = key.2.2 := congrArg (fun t => t.2.2) hkj
      show (⟨scoreAt (builtIndex (r0 :: rs)) qv j,
          (builtIndex (r0 :: rs)).source_path.getD j "",
          (builtIndex (r0 :: rs)).kind.getD j "",
          (builtIndex (r0 :: rs)).chunk_index.getD j 0,
          (builtIndex (r0 :: rs)).priority.getD j "",
          (builtIndex (r0 :: rs)).text.getD j ""⟩ : RetrievedChunk ℝ) = _
      rw [h1, builtIndex_source_path, builtIndex_kind, builtIndex_chunk_index,
        builtIndex_priority, builtIndex_text,
        getD_map_lt _ _ _ hj, getD_map_lt _ _ _ hj, getD_map_lt _ _ _ hj,
        getD_map_lt _ _ _ hj, getD_map_lt _ _ _ hj]
      rw [hsp, hkd, hci, htext, hprio, loadPriority_some, if_pos hpl]
    · exfalso
      have hmem := List.getElem_mem hj
      have hne := hother _ hmem hkj
      rcases normalizeRow_unit_or_zero ((r0 :: rs)[j].emb.take (r0 :: rs)[j].dim) with
        hu | ⟨hz, hzs⟩
      · have hlen : (normalizeRow ((r0 :: rs)[j].emb.take (r0 :: rs)[j].dim)).length
            = qv.length := by
          rw [normalizeRow_length, List.length_take, hqlen]
          obtain ⟨h1d, h2d⟩ := hall _ hmem
          omega
        have hdot1 : dot (normalizeRow ((r0 :: rs)[j].emb.take (r0 :: rs)[j].dim)) qv = 1 := by
          have h1' := h1
          unfold scoreAt at h1'
          rwa [hrowvec j hj] at h1'
        exact hne (eq_of_dot_eq_one _ _ hu hq1 hlen hdot1)
      · have hz0 : scoreAt (builtIndex (r0 :: rs)) qv j = 0 := by
          unfold scoreAt
          rw [hrowvec j hj, hz, dot_eq_zero_left _ qv (sumSq_eq_zero_mem _ hzs)]
        rw [hz0] at h1
        norm_num at h1
  have hN1 : 1 ≤ (builtIndex (r0 :: rs)).emb_matrix.length := by
    rw [hN]
    simp
  have hplt : p < (builtIndex (r0 :: rs)).emb_matrix.length := by
    rw [hN]
    exact hp
  have hps : scoreAt (builtIndex (r0 :: rs)) qv p = 1 := by
    apply hscore_keyed p hp
    rw [hpe]
    exact hkX
  exact retrieve_head_of_top (builtIndex (r0 :: rs)) qv k hk hN1 p hplt hps hle _ hsc1

end ServiceLemmas

/-- C1: for every snapshot and every retrieve request with positive `topk`,
the result is a sequence of `RetrievedChunk` records whose length is exactly
`min topk candidate_count`, sorted descending by score; a `topk` larger than
the number of candidates is clamped silently, and `retrieve` is total so no
error is possible. -/
theorem retrieve_topk_clamped_sorted {α : Type} [LinearOrderedCommRing α]
    (s : RagIndex α) (qv : List α) (k : Nat) (kf : Option String) (_hk : 1 ≤ k) :
    (retrieve s qv k kf).length = min k (candidateCount s kf) ∧
      (retrieve s qv k kf).Pairwise (fun a b => b.score ≤ a.score) := by
  constructor
  · exact retrieve_length_eq s qv k kf
  · unfold retrieve
    refine List.Pairwise.map _ ?_ (retrievePairs_pairwise s qv k kf)
    intro a b h
    exact rankLe_score h

/-- Witness for C1 at a concrete snapshot: `topk = 5` against three
candidate rows is clamped to three results. -/
theorem retrieve_topk_clamped_sorted_witness :
    1 ≤ 5 ∧
      ((retrieve cIdxW [(1 : ℤ), 0] 5 none).length = min 5 (candidateCount cIdxW none) ∧
        (retrieve cIdxW [(1 : ℤ), 0] 5 none).Pairwise (fun a b => b.score ≤ a.score)) :=
  ⟨by decide, retrieve_topk_clamped_sorted cIdxW [1, 0] 5 none (by decide)⟩

/-- C2 (amended): for every retrieve request whose kind filter is a
non-empty string `f`, every returned record has kind exactly `f`, and if no
row of the snapshot has kind `f` the result is the empty sequence, not an
error. The amendment: the code treats an empty-string filter value as no
filter at all (`if q.kind:` is false for `""`), so the claim holds only for
non-empty filter strings. -/
theorem retrieve_kind_filter_correct {α : Type} [LinearOrderedCommRing α]
    (s : RagIndex α) (qv : List α) (k : Nat) (f : String) (hf : f ≠ "") :
    (∀ c ∈ retrieve s qv k (some f), c.kind = f) ∧
      (f ∉ s.kind → retrieve s qv k (some f) = []) := by
  constructor
  · intro c hc
    unfold retrieve at hc
    rcases List.mem_map.mp hc with ⟨p, hp, rfl⟩
    obtain ⟨hidx, _⟩ := scoredList_mem (retrievePairs_subset hp)
    obtain ⟨_, hkind⟩ := (mem_candIdx_some hf).mp hidx
    exact hkind
  · intro hn
    exact retrieve_no_match s qv k f hf hn

/-- Witness for C2 at a concrete snapshot and the filter `"j"`. -/
theorem retrieve_kind_filter_correct_witness :
    "j" ≠ "" ∧
      ((∀ c ∈ retrieve cIdxW [(1 : ℤ), 0] 5 (some "j"), c.kind = "j") ∧
        ("j" ∉ cIdxW.kind → retrieve cIdxW [(1 : ℤ), 0] 5 (some "j") = [])) :=
  ⟨by decide, retrieve_kind_filter_correct cIdxW [1, 0] 5 "j" (by decide)⟩

/-- Counterexample for C2 as frozen: a retrieve request whose kind filter is
set to the empty string is treated by the code as unfiltered, so it returns
a record whose kind is not equal to the filter value. -/
theorem retrieve_empty_filter_cex :
    (retrieve cTinyW [(1 : ℤ)] 1 (some "")).map (fun c => c.kind) = ["journal"] ∧
      "journal" ≠ "" := by
  decide

/-- C7: at index build time every snapshot embedding is the defensive
re-normalization of its persisted vector; a vector with positive L2 norm is
rescaled to unit length (sum of squares exactly one), while a zero-norm
vector passes through unchanged (no division happens) and scores exactly
zero against every query vector. -/
theorem normalize_unit_or_zero_score (rows : List DBRow) (s : RagIndex ℝ)
    (h : load_index_from_db rows = .ok s) :
    s.emb_matrix = rows.map (fun r => normalizeRow (r.emb.take r.dim)) ∧
      (∀ v : List ℝ, 0 < l2norm v → sumSq (normalizeRow v) = 1) ∧
      (∀ v : List ℝ, l2norm v = 0 → normalizeRow v = v) ∧
      (∀ v q : List ℝ, l2norm v = 0 → dot (normalizeRow v) q = 0) := by
  obtain ⟨r0, rs, rfl, _, rfl⟩ := load_index_ok_elim h
  exact ⟨rfl, fun v hv => sumSq_normalizeRow v hv,
    fun v hv => normalizeRow_of_norm_eq_zero v hv,
    fun v q hv => dot_normalizeRow_zero v q hv⟩

/-- Witness for C7 at a concrete one-row store whose embedding is the zero
vector. -/
theorem normalize_unit_or_zero_score_witness :
    load_index_from_db cRows7 = .ok (builtIndex cRows7) ∧
      ((builtIndex cRows7).emb_matrix =
          cRows7.map (fun r => normalizeRow (r.emb.take r.dim)) ∧
        (∀ v : List ℝ, 0 < l2norm v → sumSq (normalizeRow v) = 1) ∧
        (∀ v : List ℝ, l2norm v = 0 → normalizeRow v = v) ∧
        (∀ v q : List ℝ, l2norm v = 0 → dot (normalizeRow v) q = 0)) := by
  have hld : load_index_from_db cRows7 = .ok (builtIndex cRows7) := by
    show load_index_from_db (cR7a :: []) = .ok (builtIndex (cR7a :: []))
    apply load_index_ok_of
    intro r hr
    rcases List.mem_singleton.mp hr with rfl
    exact ⟨rfl, by simp [cR7a]⟩
  exact ⟨hld, normalize_unit_or_zero_score cRows7 (builtIndex cRows7) hld⟩

/-- C9: every snapshot produced by index construction is internally aligned:
the five parallel columns and the embedding matrix all have length
`rows.length`, each embedding row has the common dimension, each column
entry at row `i` comes from the persisted row at position `i`, and every
retrieve result is assembled entirely from the single row index that
produced its score. -/
theorem snapshot_aligned (rows : List DBRow) (s : RagIndex ℝ)
    (h : load_index_from_db rows = .ok s) :
    s.source_path.length = rows.length ∧ s.kind.length = rows.length ∧
      s.chunk_index.length = rows.length ∧ s.priority.length = rows.length ∧
      s.text.length = rows.length ∧ s.emb_matrix.length = rows.length ∧
      (∀ i, (hi : i < rows.length) →
        s.source_path.getD i "" = rows[i].source_path ∧
        s.kind.getD i "" = rows[i].kind ∧
        s.chunk_index.getD i 0 = rows[i].chunk_index ∧
        s.priority.getD i "" = loadPriority rows[i].priority ∧
        s.text.getD i "" = rows[i].text ∧
        s.emb_matrix.getD i [] = normalizeRow (rows[i].emb.take rows[i].dim)) ∧
      (∀ v ∈ s.emb_matrix, v.length = (rows.headD default).dim) ∧
      (∀ (qv : List ℝ) (k : Nat) (kf : Option String) (c : RetrievedChunk ℝ),
        c ∈ retrieve s qv k kf → ∃ i, i < rows.length ∧ c = mkChunk s i (scoreAt s qv i)) := by
  obtain ⟨r0, rs, rfl, hall, rfl⟩ := load_index_ok_elim h
  have he : (builtIndex (r0 :: rs)).emb_matrix.length = (r0 :: rs).length := by
    rw [builtIndex_emb_matrix, List.length_map]
  have hk2 : (builtIndex (r0 :: rs)).kind.length = (r0 :: rs).length := by
    rw [builtIndex_kind, List.length_map]
  simp only [builtIndex_source_path, builtIndex_kind, builtIndex_chunk_index,
    builtIndex_priority, builtIndex_text, builtIndex_emb_matrix]
  refine ⟨List.length_map _ _, List.length_map _ _, List.length_map _ _,
    List.length_map _ _, List.length_map _ _, List.length_map _ _, ?_, ?_, ?_⟩
  · intro i hi
    exact ⟨getD_map_lt _ _ _ hi, getD_map_lt _ _ _ hi, getD_map_lt _ _ _ hi,
      getD_map_lt _ _ _ hi, getD_map_lt _ _ _ hi, getD_map_lt _ _ _ hi⟩
  · intro v hv
    rcases List.mem_map.mp hv with ⟨r, hr, rfl⟩
    obtain ⟨hdim, hle⟩ := hall r hr
    rw [normalizeRow_length, List.length_take]
    have hhd : (r0 :: rs).headD default = r0 := rfl
    rw [hhd, ← hdim]
    omega
  · intro qv k kf c hc
    obtain ⟨i, hi, rfl⟩ := retrieve_mem_char hc
    refine ⟨i, ?_, rfl⟩
    rcases mem_candIdx_lt hi with h' | h' <;> omega

/-- Witness for C9 at a concrete one-row store. -/
theorem snapshot_aligned_witness :
    load_index_from_db cRows9 = .ok (builtIndex cRows9) ∧
      ((builtIndex cRows9).source_path.length = cRows9.length ∧
        (builtIndex cRows9).kind.length = cRows9.length ∧
        (builtIndex cRows9).chunk_index.length = cRows9.length ∧
        (builtIndex cRows9).priority.length = cRows9.length ∧
        (builtIndex cRows9).text.length = cRows9.length ∧
        (builtIndex cRows9).emb_matrix.length = cRows9.length ∧
        (∀ i, (hi : i < cRows9.length) →
          (builtIndex cRows9).source_path.getD i "" = cRows9[i].source_path ∧
          (builtIndex cRows9).kind.getD i "" = cRows9[i].kind ∧
          (builtIndex cRows9).chunk_index.getD i 0 = cRows9[i].chunk_index ∧
          (builtIndex cRows9).priority.getD i "" = loadPriority cRows9[i].priority ∧
          (builtIndex cRows9).text.getD i "" = cRows9[i].text ∧
          (builtIndex cRows9).emb_matrix.getD i [] =
            normalizeRow (cRows9[i].emb.take cRows9[i].dim)) ∧
        (∀ v ∈ (builtIndex cRows9).emb_matrix, v.length = (cRows9.headD default).dim) ∧
        (∀ (qv : List ℝ) (k : Nat) (kf : Option String) (c : RetrievedChunk ℝ),
          c ∈ retrieve (builtIndex cRows9) qv k kf →
            ∃ i, i < cRows9.length ∧
              c = mkChunk (builtIndex cRows9) i (scoreAt (builtIndex cRows9) qv i))) := by
  have hld : load_index_from_db cRows9 = .ok (builtIndex cRows9) := by
    show load_index_from_db (cR9a :: []) = .ok (builtIndex (cR9a :: []))
    apply load_index_ok_of
    intro r hr
    rcases List.mem_singleton.mp hr with rfl
    exact ⟨rfl, by simp [cR9a]⟩
  exact ⟨hld, snapshot_aligned cRows9 (builtIndex cRows9) hld⟩

/-- C10: every priority value held in a built snapshot, and therefore every
priority value returned by retrieve, is `"normal"` or `"high"`; a NULL
priority column loads as `"normal"`, and any string outside the set loads as
`"normal"` rather than being rejected or passed through. -/
theorem priority_always_valid (rows : List DBRow) (s : RagIndex ℝ)
    (h : load_index_from_db rows = .ok s) :
    (∀ p ∈ s.priority, p = "normal" ∨ p = "high") ∧
      (∀ (qv : List ℝ) (k : Nat) (kf : Option String) (c : RetrievedChunk ℝ),
        c ∈ retrieve s qv k kf → c.priority = "normal" ∨ c.priority = "high") ∧
      loadPriority none = "normal" ∧
      (∀ str, str ∉ PRIORITIES → loadPriority (some str) = "normal") := by
  obtain ⟨r0, rs, rfl, _, rfl⟩ := load_index_ok_elim h
  have hmem : ∀ p ∈ (builtIndex (r0 :: rs)).priority, p = "normal" ∨ p = "high" := by
    intro p hp
    rcases List.mem_map.mp hp with ⟨r, _, rfl⟩
    exact loadPriority_mem r.priority
  refine ⟨hmem, ?_, rfl, ?_⟩
  · intro qv k kf c hc
    obtain ⟨i, hi, rfl⟩ := retrieve_mem_char hc
    have hple : (builtIndex (r0 :: rs)).priority.length = (r0 :: rs).length := by
      rw [builtIndex_priority, List.length_map]
    have hele : (builtIndex (r0 :: rs)).emb_matrix.length = (r0 :: rs).length := by
      rw [builtIndex_emb_matrix, List.length_map]
    have hkle : (builtIndex (r0 :: rs)).kind.length = (r0 :: rs).length := by
      rw [builtIndex_kind, List.length_map]
    have hlt : i < (builtIndex (r0 :: rs)).priority.length := by
      rcases mem_candIdx_lt hi with h' | h' <;> omega
    have hpr : (mkChunk (builtIndex (r0 :: rs)) i
        (scoreAt (builtIndex (r0 :: rs)) qv i)).priority
        = (builtIndex (r0 :: rs)).priority.getD i "" := rfl
    rw [hpr, List.getD_eq_getElem _ _ hlt]
    exact hmem _ (List.getElem_mem hlt)
  · intro str hstr
    rw [loadPriority_some, if_neg hstr]

/-- Witness for C10 at a concrete store with a NULL priority column. -/
theorem priority_always_valid_witness :
    load_index_from_db cRows10 = .ok (builtIndex cRows10) ∧
      ((∀ p ∈ (builtIndex cRows10).priority, p = "normal" ∨ p = "high") ∧
        (∀ (qv : List ℝ) (k : Nat) (kf : Option String) (c : RetrievedChunk ℝ),
          c ∈ retrieve (builtIndex cRows10) qv k kf →
            c.priority = "normal" ∨ c.priority = "high") ∧
        loadPriority none = "normal" ∧
        (∀ str, str ∉ PRIORITIES → loadPriority (some str) = "normal")) := by
  have hld : load_index_from_db cRows10 = .ok (builtIndex cRows10) := by
    show load_index_from_db (cR10a :: []) = .ok (builtIndex (cR10a :: []))
    apply load_index_ok_of
    intro r hr
    rcases List.mem_singleton.mp hr with rfl
    exact ⟨rfl, by simp [cR10a]⟩
  exact ⟨hld, priority_always_valid cRows10 (builtIndex cRows10) hld⟩

/-- C4: a store whose records are well-formed (each blob holds at least
`dim` floats) but contains two records with different `dim` values makes
index construction fail deterministically with a dimension-mismatch error
instead of returning a snapshot, and the service never becomes ready on such
a store: startup leaves the index slot empty and reload keeps the state
unchanged. -/
theorem dim_mismatch_never_ready (r0 : DBRow) (rs : List DBRow)
    (hbuf : ∀ r ∈ r0 :: rs, r.dim ≤ r.emb.length)
    (r1 r2 : DBRow) (h1 : r1 ∈ r0 :: rs) (h2 : r2 ∈ r0 :: rs)
    (hne : r1.dim ≠ r2.dim) :
    (∃ g, g ≠ r0.dim ∧
        load_index_from_db (r0 :: rs) = .error (.dimMismatch g r0.dim)) ∧
      (∀ enc : String → List ℝ, (startup enc (r0 :: rs)).1.ready = false) ∧
      (∀ st : AppState, (reload_index st (r0 :: rs)).1 = st) := by
  have hex : ∃ r ∈ r0 :: rs, r.dim ≠ r0.dim := by
    by_cases hr1 : r1.dim = r0.dim
    · refine ⟨r2, h2, fun hcon => hne ?_⟩
      rw [hr1, hcon]
    · exact ⟨r1, h1, hr1⟩
  obtain ⟨g, hg, herr⟩ := load_index_error_dim r0 rs hbuf hex
  refine ⟨⟨g, hg, herr⟩, ?_, ?_⟩
  · intro enc
    unfold startup
    rw [herr]
    rfl
  · intro st
    obtain ⟨m, i⟩ := st
    unfold reload_index
    cases m with
    | none => rfl
    | some enc =>
        rw [herr]

/-- C5: when a snapshot rebuild fails, the previously installed snapshot
stays in place — an explicit reload returns the state untouched with a
reload error, and a store whose upsert already succeeded returns the state
untouched together with the upserted row list (the data persisted) and the
distinct stored-but-reload-failed error; the two error kinds can never be
confused. -/
theorem rebuild_failure_keeps_snapshot (st : AppState) (db : List DBRow)
    (enc : String → List ℝ) (hm : st.model = some enc) (hr : st.ready = true)
    (req : StoreRequest) (hpr : normPriority req.priority ∈ PRIORITIES)
    (nid ts : String) (e e' : LoadError)
    (hfailR : load_index_from_db db = .error e)
    (hfailS : load_index_from_db (upsertRow db (newRowOf enc req nid ts)) = .error e') :
    reload_index st db = (st, .error (.reloadFailed e)) ∧
      store st db req nid ts =
        (st, upsertRow db (newRowOf enc req nid ts),
          .error (.storedButReloadFailed e')) ∧
      (∀ e1 e2 : LoadError, SvcError.storedButReloadFailed e1 ≠ SvcError.reloadFailed e2) := by
  refine ⟨?_, ?_, ?_⟩
  · unfold reload_index
    rw [hm]
    dsimp only
    rw [hfailR]
  · rw [store_eq hm hr hpr db nid ts]
    obtain ⟨row, hrow⟩ := lookup_upsert_some db (newRowOf enc req nid ts)
    rw [← natKey_newRowOf enc req nid ts, hrow]
    dsimp only
    rw [hfailS]
  · intro e1 e2 hcon
    exact SvcError.noConfusion hcon

/-- Witness for C5 at a concrete dimension-inconsistent store: the reload
and the store both fail to rebuild, the state comes back unchanged, and the
store's row list still contains the appended row. -/
theorem rebuild_failure_keeps_snapshot_witness :
    reload_index cStW cDb5 =
        (cStW, .error (.reloadFailed (.dimMismatch cR4b.dim cR4a.dim))) ∧
      store cStW cDb5 cReq5 "nid" "ts" =
        (cStW, upsertRow cDb5 (newRowOf cEnc5 cReq5 "nid" "ts"),
          .error (.storedButReloadFailed (.dimMismatch cR4b.dim cR4a.dim))) ∧
      (∀ e1 e2 : LoadError, SvcError.storedButReloadFailed e1 ≠ SvcError.reloadFailed e2) := by
  have hfailR : load_index_from_db cDb5 = .error (.dimMismatch cR4b.dim cR4a.dim) := by
    rw [show cDb5 = cR4a :: cR4b :: [] from rfl]
    exact load_index_error_two cR4a cR4b [] (by simp [cR4a]) (by decide)
  have hup : upsertRow cDb5 (newRowOf cEnc5 cReq5 "nid" "ts") =
      cDb5 ++ [newRowOf cEnc5 cReq5 "nid" "ts"] := by
    unfold upsertRow
    rw [if_neg (by decide)]
  have hfailS : load_index_from_db (upsertRow cDb5 (newRowOf cEnc5 cReq5 "nid" "ts"))
      = .error (.dimMismatch cR4b.dim cR4a.dim) := by
    rw [hup, show cDb5 ++ [newRowOf cEnc5 cReq5 "nid" "ts"]
        = cR4a :: cR4b :: [newRowOf cEnc5 cReq5 "nid" "ts"] from rfl]
    exact load_index_error_two cR4a cR4b _ (by simp [cR4a]) (by decide)
  exact rebuild_failure_keeps_snapshot cStW cDb5 cEnc5 rfl rfl cReq5 (by decide)
    "nid" "ts" _ _ hfailR hfailS

/-- C3: a store call onto an existing natural key updates the row's
priority, text, embedding, dim and created_at in place while preserving its
id; two successive successful store calls with that key therefore both
return the original row's id in their responses, and the final row carries
the second call's payload under the original id. -/
theorem store_preserves_id (st : AppState) (db : List DBRow)
    (enc : String → List ℝ) (hm : st.model = some enc) (hr : st.ready = true)
    (hnd : natKeysNodup db) (r0 : DBRow) (hr0 : r0 ∈ db)
    (req1 req2 : StoreRequest)
    (hk1 : natKey r0 = reqKey req1) (hk2 : natKey r0 = reqKey req2)
    (hpr1 : normPriority req1.priority ∈ PRIORITIES)
    (hpr2 : normPriority req2.priority ∈ PRIORITIES)
    (nid1 ts1 nid2 ts2 : String) (i1 i2 : RagIndex ℝ)
    (hld1 : load_index_from_db (upsertRow db (newRowOf enc req1 nid1 ts1)) = .ok i1)
    (hld2 : load_index_from_db
        (upsertRow (upsertRow db (newRowOf enc req1 nid1 ts1)) (newRowOf enc req2 nid2 ts2))
        = .ok i2) :
    store st db req1 nid1 ts1 =
      ({ st with index := some i1 }, upsertRow db (newRowOf enc req1 nid1 ts1),
        .ok ⟨true, r0.id, (enc req1.text).length⟩) ∧
      store { st with index := some i1 } (upsertRow db (newRowOf enc req1 nid1 ts1))
          req2 nid2 ts2 =
        ({ st with index := some i2 },
          upsertRow (upsertRow db (newRowOf enc req1 nid1 ts1)) (newRowOf enc req2 nid2 ts2),
          .ok ⟨true, r0.id, (enc req2.text).length⟩) ∧
      (∃ rr ∈ upsertRow (upsertRow db (newRowOf enc req1 nid1 ts1))
          (newRowOf enc req2 nid2 ts2),
        natKey rr = natKey r0 ∧ rr.id = r0.id ∧
          samePayload rr (newRowOf enc req2 nid2 ts2)) := by
  have hlook1 : lookupRow (upsertRow db (newRowOf enc req1 nid1 ts1))
      (natKey (newRowOf enc req1 nid1 ts1))
      = some (updateRow r0 (newRowOf enc req1 nid1 ts1)) :=
    lookup_upsert_update hnd hr0 hk1
  have hnd1 : natKeysNodup (upsertRow db (newRowOf enc req1 nid1 ts1)) :=
    natKeysNodup_upsert hnd _
  have hmem1 : updateRow r0 (newRowOf enc req1 nid1 ts1)
      ∈ upsertRow db (newRowOf enc req1 nid1 ts1) :=
    mem_upsert_update hr0 hk1
  have hk2u : natKey (updateRow r0 (newRowOf enc req1 nid1 ts1))
      = natKey (newRowOf enc req2 nid2 ts2) := by
    rw [natKey_updateRow]
    exact hk2
  have hlook2 : lookupRow (upsertRow (upsertRow db (newRowOf enc req1 nid1 ts1))
        (newRowOf enc req2 nid2 ts2)) (natKey (newRowOf enc req2 nid2 ts2))
      = some (updateRow (updateRow r0 (newRowOf enc req1 nid1 ts1))
          (newRowOf enc req2 nid2 ts2)) :=
    lookup_upsert_update hnd1 hmem1 hk2u
  refine ⟨?_, ?_, ?_⟩
  · rw [store_eq hm hr hpr1 db nid1 ts1, ← natKey_newRowOf enc req1 nid1 ts1, hlook1]
    dsimp only
    rw [hld1]
    rfl
  · rw [store_eq (show ({ st with index := some i1 } : AppState).model = some enc from hm)
      (ready_set_index hr i1) hpr2 _ nid2 ts2,
      ← natKey_newRowOf enc req2 nid2 ts2, hlook2]
    dsimp only
    rw [hld2]
    rfl
  · exact ⟨updateRow (updateRow r0 (newRowOf enc req1 nid1 ts1)) (newRowOf enc req2 nid2 ts2),
      mem_upsert_update hmem1 hk2u, by rw [natKey_updateRow, natKey_updateRow],
      rfl, samePayload_updateRow _ _⟩

/-- Witness for C3: one pre-existing row stored over twice; both responses
carry the original id `"orig-id"`. -/
theorem store_preserves_id_witness :
    store cSt3 cDb3 cReq3a "n1" "t1" =
      ({ cSt3 with index := some (builtIndex [updateRow cR3a cNew3a]) },
        upsertRow cDb3 cNew3a, .ok ⟨true, cR3a.id, (cEnc3 cReq3a.text).length⟩) ∧
      store { cSt3 with index := some (builtIndex [updateRow cR3a cNew3a]) }
          (upsertRow cDb3 cNew3a) cReq3b "n2" "t2" =
        ({ cSt3 with index := some (builtIndex [updateRow (updateRow cR3a cNew3a) cNew3b]) },
          upsertRow (upsertRow cDb3 cNew3a) cNew3b,
          .ok ⟨true, cR3a.id, (cEnc3 cReq3b.text).length⟩) ∧
      (∃ rr ∈ upsertRow (upsertRow cDb3 cNew3a) cNew3b,
        natKey rr = natKey cR3a ∧ rr.id = cR3a.id ∧ samePayload rr cNew3b) := by
  have hk1 : natKey cR3a = reqKey cReq3a := by decide
  have hk2 : natKey cR3a = reqKey cReq3b := by decide
  have hup1 : upsertRow cDb3 cNew3a = [updateRow cR3a cNew3a] := upsert_singleton hk1
  have hup2 : upsertRow [updateRow cR3a cNew3a] cNew3b
      = [updateRow (updateRow cR3a cNew3a) cNew3b] :=
    upsert_singleton (by rw [natKey_updateRow]; exact hk2)
  have hld1 : load_index_from_db (upsertRow cDb3 cNew3a)
      = .ok (builtIndex [updateRow cR3a cNew3a]) := by
    rw [hup1]
    apply load_index_ok_of
    intro r hr
    rcases List.mem_singleton.mp hr with rfl
    exact ⟨rfl, by simp [updateRow, cNew3a, newRowOf, cEnc3]⟩
  have hld2 : load_index_from_db (upsertRow (upsertRow cDb3 cNew3a) cNew3b)
      = .ok (builtIndex [updateRow (updateRow cR3a cNew3a) cNew3b]) := by
    rw [hup1, hup2]
    apply load_index_ok_of
    intro r hr
    rcases List.mem_singleton.mp hr with rfl
    exact ⟨rfl, by simp [updateRow, cNew3b, newRowOf, cEnc3]⟩
  have hmain := store_preserves_id cSt3 cDb3 cEnc3 rfl rfl
    (by unfold natKeysNodup; decide) cR3a
    (List.mem_singleton.mpr rfl) cReq3a cReq3b hk1 hk2 (by decide) (by decide)
    "n1" "t1" "n2" "t2" (builtIndex [updateRow cR3a cNew3a])
    (builtIndex [updateRow (updateRow cR3a cNew3a) cNew3b])
    hld1 hld2
  exact hmain

/-- Witness for C4 at a concrete two-row store with dimensions one and
two. -/
theorem dim_mismatch_never_ready_witness :
    cR4a.dim ≠ cR4b.dim ∧
      ((∃ g, g ≠ cR4a.dim ∧
          load_index_from_db (cR4a :: [cR4b]) = .error (.dimMismatch g cR4a.dim)) ∧
        (∀ enc : String → List ℝ, (startup enc (cR4a :: [cR4b])).1.ready = false) ∧
        (∀ st : AppState, (reload_index st (cR4a :: [cR4b])).1 = st)) := by
  have hbuf : ∀ r ∈ cR4a :: [cR4b], r.dim ≤ r.emb.length := by
    intro r hr
    rcases List.mem_cons.mp hr with rfl | hr
    · simp [cR4a]
    · rcases List.mem_singleton.mp hr with rfl
      simp [cR4b]
  exact ⟨by decide, dim_mismatch_never_ready cR4a [cR4b] hbuf cR4a cR4b
    (List.mem_cons_self _ _) (List.mem_cons_of_mem _ (List.mem_singleton.mpr rfl))
    (by decide)⟩

/-- C6 (amended): for every deterministic embedding function producing
unit-length vectors, after a successful store of chunk X a retrieve whose
query text is X's text returns at rank 1 a record with score exactly one
carrying X's source_path, kind, chunk_index, priority and text — provided no
other persisted row's normalized embedding equals X's embedding. The
amendment: without that proviso an earlier row with the same embedding
vector ties at score one and wins the stable tie-break, so X itself lands at
rank 2. -/
theorem self_similarity_rank_one (st : AppState) (db : List DBRow)
    (enc : String → List ℝ) (hm : st.model = some enc) (hr : st.ready = true)
    (hunit : ∀ t, sumSq (enc t) = 1)
    (req : StoreRequest) (hpr : normPriority req.priority ∈ PRIORITIES)
    (nid ts : String) (st' : AppState) (db' : List DBRow) (resp : StoreResponse)
    (hstore : store st db req nid ts = (st', db', .ok resp))
    (huniq : ∀ r ∈ db, natKey r ≠ reqKey req →
      normalizeRow (r.emb.take r.dim) ≠ enc req.text)
    (k : Nat) (hk : 1 ≤ k) :
    ∃ s : RagIndex ℝ, st'.index = some s ∧
      (retrieve s (enc req.text) k none).head? =
        some ⟨1, req.source_path, req.kind, req.chunk_index,
          normPriority req.priority, req.text⟩ := by
  rw [store_eq hm hr hpr db nid ts] at hstore
  cases hlk : lookupRow (upsertRow db (newRowOf enc req nid ts)) (reqKey req) with
  | none =>
      rw [hlk] at hstore
      simp at hstore
  | some row =>
      rw [hlk] at hstore
      cases hld : load_index_from_db (upsertRow db (newRowOf enc req nid ts)) with
      | error e =>
          rw [hld] at hstore
          simp at hstore
      | ok s0 =>
          rw [hld] at hstore
          have hst' : ({ st with index := some s0 } : AppState) = st' :=
            congrArg Prod.fst hstore
          refine ⟨s0, by rw [← hst'], ?_⟩
          refine retrieve_self_top (upsertRow db (newRowOf enc req nid ts)) (enc req.text)
            (hunit req.text) s0 hld (reqKey req) (normPriority req.priority) hpr req.text
            ?_ ?_ ?_ k hk
          · intro r hrm hkr
            obtain ⟨hprio, htext, hemb, hdim, _⟩ := (upsert_mem_char hrm).1 hkr
            exact ⟨hemb.trans rfl, hdim.trans rfl, hprio.trans rfl, htext.trans rfl⟩
          · obtain ⟨r', hmem, hk', _⟩ := upsert_exists_key db (newRowOf enc req nid ts)
            exact ⟨r', hmem, hk'⟩
          · intro r hrm hkr
            exact huniq r ((upsert_mem_char hrm).2 hkr) hkr

/-- Witness for C6: storing into an empty persistent store and querying with
the stored text returns the stored chunk at rank 1 with score one. -/
theorem self_similarity_rank_one_witness :
    (∀ t, sumSq (cEncX t) = 1) ∧
      (∃ s : RagIndex ℝ,
        ({ cStX with index := some (builtIndex [cNewX]) } : AppState).index = some s ∧
        (retrieve s (cEncX cReqX.text) 1 none).head? =
          some ⟨1, cReqX.source_path, cReqX.kind, cReqX.chunk_index,
            normPriority cReqX.priority, cReqX.text⟩) := by
  have hunit : ∀ t, sumSq (cEncX t) = 1 := by
    intro t
    norm_num [cEncX, sumSq]
  have hup : upsertRow [] (newRowOf cEncX cReqX "nid" "ts")
      = [newRowOf cEncX cReqX "nid" "ts"] := by
    unfold upsertRow
    rw [if_neg (by decide)]
    rfl
  have hld : load_index_from_db [newRowOf cEncX cReqX "nid" "ts"]
      = .ok (builtIndex [newRowOf cEncX cReqX "nid" "ts"]) := by
    apply load_index_ok_of
    intro r hr
    rcases List.mem_singleton.mp hr with rfl
    exact ⟨rfl, le_of_eq rfl⟩
  have hstore : store cStX [] cReqX "nid" "ts" =
      ({ cStX with index := some (builtIndex [cNewX]) }, [cNewX],
        .ok ⟨true, "nid", 1⟩) := by
    rw [store_eq (show cStX.model = some cEncX from rfl)
      (show cStX.ready = true from rfl) (by decide) [] "nid" "ts", hup]
    have hlkX : lookupRow [newRowOf cEncX cReqX "nid" "ts"] (reqKey cReqX)
        = some (newRowOf cEncX cReqX "nid" "ts") := by
      unfold lookupRow
      rw [List.find?_cons_of_pos]
      simp [natKey_newRowOf]
    rw [hlkX]
    dsimp only
    rw [hld]
    rfl
  exact ⟨hunit, self_similarity_rank_one cStX [] cEncX rfl rfl hunit cReqX (by decide)
    "nid" "ts" _ _ _ hstore (by intro r hr _; cases hr) 1 (le_refl 1)⟩

/-- Counterexample for C6 as frozen: with the deterministic unit-length stub
provider mapping every text to `[1]`, storing chunk X (`b.md`) into a store
already holding a row `a.md` with the same embedding and then retrieving
with X's text puts the earlier row `a.md` at rank 1 — not X. -/
theorem self_similarity_cex :
    (∀ t, sumSq (cEncX t) = 1) ∧
      store cStX cDbX cReqX "nid" "ts" =
        ({ cStX with index := some (builtIndex cDbX') }, cDbX', .ok ⟨true, "nid", 1⟩) ∧
      (retrieve (builtIndex cDbX') (cEncX cReqX.text) 1 none).map
          (fun c => c.source_path) = ["a.md"] ∧
      cReqX.source_path = "b.md" ∧ ("a.md" : String) ≠ "b.md" := by
  have hunit : ∀ t, sumSq (cEncX t) = 1 := by
    intro t
    norm_num [cEncX, sumSq]
  have hn01 : normalizeRow [(1 : ℝ)] = [1] := normalizeRow_unit _ (by norm_num [sumSq])
  have hupX : upsertRow cDbX (newRowOf cEncX cReqX "nid" "ts")
      = cRowA :: [newRowOf cEncX cReqX "nid" "ts"] := by
    unfold upsertRow
    rw [if_neg (by decide)]
    rfl
  have hlkX : lookupRow (cRowA :: [newRowOf cEncX cReqX "nid" "ts"]) (reqKey cReqX)
      = some (newRowOf cEncX cReqX "nid" "ts") := by
    unfold lookupRow
    rw [List.find?_cons_of_neg _ (by decide), List.find?_cons_of_pos _ (by decide)]
  have hldX : load_index_from_db (cRowA :: [newRowOf cEncX cReqX "nid" "ts"])
      = .ok (builtIndex (cRowA :: [newRowOf cEncX cReqX "nid" "ts"])) := by
    apply load_index_ok_of
    intro r hr
    rcases List.mem_cons.mp hr with rfl | hr
    · exact ⟨rfl, by simp [cRowA]⟩
    · rcases List.mem_singleton.mp hr with rfl
      exact ⟨rfl, le_of_eq rfl⟩
  have hstore : store cStX cDbX cReqX "nid" "ts" =
      ({ cStX with index := some (builtIndex cDbX') }, cDbX', .ok ⟨true, "nid", 1⟩) := by
    rw [store_eq (show cStX.model = some cEncX from rfl)
      (show cStX.ready = true from rfl) (by decide) cDbX "nid" "ts", hupX, hlkX]
    dsimp only
    rw [hldX]
    rfl
  have hlp : loadPriority (some "normal") = "normal" := by
    rw [loadPriority_some, if_pos (by decide)]
  have hlp2 : loadPriority (some (normPriority "normal")) = "normal" := by
    rw [show normPriority "normal" = "normal" from by decide, hlp]
  have hsnap : builtIndex cDbX' =
      (⟨["a.md", "b.md"], ["journal", "journal"], [0, 0], ["normal", "normal"],
        ["other text", "query text"], [[1], [1]]⟩ : RagIndex ℝ) := by
    unfold builtIndex cDbX' cRowA cNewX newRowOf cEncX cReqX
    simp only [List.map_cons, List.map_nil, hlp, hlp2]
    norm_num [hn01]
  have hcand : candIdx (⟨["a.md", "b.md"], ["journal", "journal"], [0, 0],
      ["normal", "normal"], ["other text", "query text"],
      [[1], [1]]⟩ : RagIndex ℝ) none = [0, 1] := by
    rw [candIdx_none]
    rfl
  have hscored : scoredList (⟨["a.md", "b.md"], ["journal", "journal"], [0, 0],
      ["normal", "normal"], ["other text", "query text"],
      [[1], [1]]⟩ : RagIndex ℝ) [(1 : ℝ)] none = [(0, 1), (1, 1)] := by
    unfold scoredList
    rw [hcand]
    norm_num [scoreAt, dot]
  have hsort : List.insertionSort rankLe [((0 : Nat), (1 : ℝ)), (1, 1)]
      = [(0, 1), (1, 1)] := by
    rw [List.insertionSort, List.insertionSort, List.insertionSort, List.orderedInsert,
      List.orderedInsert,
      if_pos (show rankLe ((0 : Nat), (1 : ℝ)) (1, 1) from Or.inr ⟨rfl, Nat.zero_le 1⟩)]
  have hretr : (retrieve (⟨["a.md", "b.md"], ["journal", "journal"], [0, 0],
        ["normal", "normal"], ["other text", "query text"],
        [[1], [1]]⟩ : RagIndex ℝ) [(1 : ℝ)] 1 none).map (fun c => c.source_path)
      = ["a.md"] := by
    unfold retrieve retrievePairs
    rw [hscored, hsort, hcand]
    rfl
  refine ⟨hunit, hstore, ?_, rfl, by decide⟩
  rw [show cEncX cReqX.text = [(1 : ℝ)] from rfl, hsnap, hretr]

end FarmKeeper
